import Mathlib

/-!
Verification of the avatar-pipeline orchestrator against its code.

The Python tools are shallowly embedded as executable Lean functions:

* `tools/heygen_download_video.py` — the completion poller `wait_for_video`
  becomes a recursion over an explicit list of query outcomes, tracking the
  elapsed clock and the network-retry counter, and emitting an event trace
  (queries, sleeps, log lines).
* `tools/youtube_upload.py` — the resumable-upload retry loop becomes a
  recursion over a list of chunk outcomes.
* `tools/elevenlabs_tts.py` — `strip_audio_tags` / `has_audio_tags` are
  embedded as an executable model of the regex scan, and `text_to_speech` /
  `text_to_speech_dual` over an HTTP response environment.
* `tools/run_pipeline.py` — the Phase 2 orchestration `continue_with_audio`
  over an environment of step outcomes, and its filename derivation.

Strings are modelled as `List Char`.
-/

namespace Pipeline

/-- Convert a string literal to the `List Char` representation used here. -/
def chars (s : String) : List Char := s.data

/-! ## Completion poller: tools/heygen_download_video.py, wait_for_video -/

/-- Outcome of one `check_video_status` query: a `requests` timeout, another
`requests` network error, or a successful query returning a status string. -/
inductive POutcome where
  | netTimeout : POutcome
  | netError : POutcome
  | ok : List Char → POutcome
deriving DecidableEq

/-- Observable actions of the poll loop. -/
inductive PEvent where
  | query : PEvent
  | sleep : Nat → PEvent
  | unknownLog : List Char → PEvent
deriving DecidableEq

/-- How a poll run ends.  `timeout msgSecs elapsed` is the `TimeoutError`
raise: `msgSecs` is the number printed in the message and `elapsed` the
clock value at the raise.  `netRaise` re-raises the network exception
(`true` for `requests.exceptions.Timeout`).  `starved elapsed retry`
marks the outcome script running out, exposing the loop state. -/
inductive PollRes where
  | completed : PollRes
  | genFailed : PollRes
  | timeout : Nat → Nat → PollRes
  | netRaise : Bool → PollRes
  | starved : Nat → Nat → PollRes
deriving DecidableEq

/-- The `while True` loop of `wait_for_video` (lines 68-105): check the
elapsed clock against `max_wait`, query, on network failure bump the retry
counter (raising at `max_retries = 3`) and sleep a fixed 5 seconds, on a
successful query reset the counter and dispatch on the status string. -/
def pollGo (pollInterval maxWait : Nat) (l : List POutcome) (elapsed retry : Nat) :
    PollRes × List PEvent :=
  if maxWait < elapsed then (.timeout maxWait elapsed, [])
  else
    match l with
      | [] => (.starved elapsed retry, [])
      | .netTimeout :: rest =>
          if 3 ≤ retry + 1 then (.netRaise true, [.query])
          else
            let r := pollGo pollInterval maxWait rest (elapsed + 5) (retry + 1)
            (r.1, .query :: .sleep 5 :: r.2)
      | .netError :: rest =>
          if 3 ≤ retry + 1 then (.netRaise false, [.query])
          else
            let r := pollGo pollInterval maxWait rest (elapsed + 5) (retry + 1)
            (r.1, .query :: .sleep 5 :: r.2)
      | .ok st :: rest =>
          if st = chars "completed" then (.completed, [.query])
          else if st = chars "failed" then (.genFailed, [.query])
          else if st = chars "pending" ∨ st = chars "processing" ∨ st = chars "waiting" then
            let r := pollGo pollInterval maxWait rest (elapsed + pollInterval) 0
            (r.1, .query :: .sleep pollInterval :: r.2)
          else
            let r := pollGo pollInterval maxWait rest (elapsed + pollInterval) 0
            (r.1, .query :: .unknownLog st :: .sleep pollInterval :: r.2)

/-- `wait_for_video(video_id, poll_interval, max_wait)`: run the loop from
elapsed time 0 and retry counter 0. -/
def wait_for_video (outcomes : List POutcome) (pollInterval maxWait : Nat) :
    PollRes × List PEvent :=
  pollGo pollInterval maxWait outcomes 0 0

/-- A successful query whose status keeps the loop going (not `completed`
and not `failed`). -/
def nonTerminalOk : POutcome → Bool
  | .ok st => !(st == chars "completed") && !(st == chars "failed")
  | _ => false

/-- C2: on each network failure the poller increments the retry counter and
sleeps a fixed 5 seconds (not exponential) before re-querying; a successful
query resets the counter to 0.  Two failures then a success: no raise and
counter 0 after the success.  Three consecutive failures: the failure is
propagated after exactly 3 queries, with no 4th query regardless of the
remaining script. -/
theorem wait_for_video_network_retry_policy :
    (∀ rest pollInterval maxWait elapsed retry,
        elapsed ≤ maxWait → retry + 1 < 3 →
        pollGo pollInterval maxWait (.netTimeout :: rest) elapsed retry =
          ((pollGo pollInterval maxWait rest (elapsed + 5) (retry + 1)).1,
            .query :: .sleep 5 ::
              (pollGo pollInterval maxWait rest (elapsed + 5) (retry + 1)).2))
    ∧ (∀ rest pollInterval maxWait elapsed retry,
        elapsed ≤ maxWait →
        pollGo pollInterval maxWait (.ok (chars "processing") :: rest) elapsed retry =
          ((pollGo pollInterval maxWait rest (elapsed + pollInterval) 0).1,
            .query :: .sleep pollInterval ::
              (pollGo pollInterval maxWait rest (elapsed + pollInterval) 0).2))
    ∧ wait_for_video [.netTimeout, .netError, .ok (chars "processing")] 10 900 =
        (.starved 20 0, [.query, .sleep 5, .query, .sleep 5, .query, .sleep 10])
    ∧ (∀ rest, pollGo 10 900 (.netTimeout :: .netError :: .netTimeout :: rest) 0 0 =
        (.netRaise true, [.query, .sleep 5, .query, .sleep 5, .query])) := by
  refine ⟨?_, ?_, ?_, ?_⟩
  · intro rest pollInterval maxWait elapsed retry he hr
    rw [pollGo]
    rw [if_neg (by omega), if_neg (by omega)]
  · intro rest pollInterval maxWait elapsed retry he
    rw [pollGo]
    rw [if_neg (by omega), if_neg (by decide), if_neg (by decide),
      if_pos (by right; left; rfl)]
  · decide
  · intro rest
    rw [pollGo]
    rw [if_neg (by omega), if_neg (by omega)]
    rw [pollGo]
    rw [if_neg (by omega), if_neg (by omega)]
    rw [pollGo]
    rw [if_neg (by omega), if_pos (by omega)]

/-- Witness for C2: the retry-increment step at a concrete state. -/
theorem wait_for_video_network_retry_policy_witness :
    pollGo 10 900 [.netTimeout] 0 0 =
      ((pollGo 10 900 [] 5 1).1, .query :: .sleep 5 :: (pollGo 10 900 [] 5 1).2) :=
  wait_for_video_network_retry_policy.1 [] 10 900 0 0 (by omega) (by omega)

/-- C3 counterexample: with `poll_interval = 10` and `max_wait = 5`, a single
`processing` answer makes the loop raise `TimeoutError` at elapsed time 10,
but the number in the raised message is the configured `max_wait = 5`
(`"timed out after {max_wait} seconds"`), not the elapsed duration. -/
theorem wait_for_video_timeout_message_counterexample :
    wait_for_video [.ok (chars "processing")] 10 5 =
      (.timeout 5 10, [.query, .sleep 10]) ∧ (5 : Nat) ≠ 10 := by
  constructor
  · decide
  · omega

/-- C3 (amended): whenever the elapsed time exceeds `max_wait` at the top of
the loop, the poller raises `TimeoutError` naming the configured maximum
wait, and issues no further queries (the event trace is empty and the
result ignores every remaining outcome); moreover any outcome script of
successful non-terminal answers that is long enough never to finish within
`max_wait` ends in that `TimeoutError`. -/
theorem wait_for_video_timeout_policy :
    (∀ (l : List POutcome) pollInterval maxWait elapsed retry,
        maxWait < elapsed →
        pollGo pollInterval maxWait l elapsed retry = (.timeout maxWait elapsed, []))
    ∧ (∀ (l : List POutcome) pollInterval maxWait elapsed retry,
        1 ≤ pollInterval →
        (∀ o ∈ l, nonTerminalOk o = true) →
        maxWait < elapsed + l.length * pollInterval →
        ∃ e2 evs, pollGo pollInterval maxWait l elapsed retry =
          (.timeout maxWait e2, evs)) := by
  constructor
  · intro l pollInterval maxWait elapsed retry h
    rw [pollGo.eq_def, if_pos h]
  · intro l pollInterval maxWait
    induction l with
    | nil =>
        intro elapsed retry _ _ hlen
        simp only [List.length_nil, Nat.zero_mul, Nat.add_zero] at hlen
        exact ⟨elapsed, [], by rw [pollGo.eq_def, if_pos hlen]⟩
    | cons o rest ih =>
        intro elapsed retry hp hnt hlen
        by_cases he : maxWait < elapsed
        · exact ⟨elapsed, [], by rw [pollGo.eq_def, if_pos he]⟩
        · have h0 := hnt o (List.mem_cons_self o rest)
          obtain ⟨st, rfl⟩ : ∃ st, o = .ok st := by
            cases o with
            | netTimeout => simp [nonTerminalOk] at h0
            | netError => simp [nonTerminalOk] at h0
            | ok st => exact ⟨st, rfl⟩
          simp only [nonTerminalOk, Bool.and_eq_true, Bool.not_eq_true',
            beq_eq_false_iff_ne, ne_eq] at h0
          obtain ⟨hc, hf⟩ := h0
          have hrest : ∀ o ∈ rest, nonTerminalOk o = true := fun o ho =>
            hnt o (List.mem_cons_of_mem _ ho)
          have hlen2 : maxWait < (elapsed + pollInterval) + rest.length * pollInterval := by
            simp only [List.length_cons] at hlen
            calc maxWait < elapsed + (rest.length + 1) * pollInterval := hlen
              _ = (elapsed + pollInterval) + rest.length * pollInterval := by ring
          obtain ⟨e2, evs, hrec⟩ := ih (elapsed + pollInterval) 0 hp hrest hlen2
          by_cases hpend : st = chars "pending" ∨ st = chars "processing" ∨
              st = chars "waiting"
          · refine ⟨e2, .query :: .sleep pollInterval :: evs, ?_⟩
            rw [pollGo, if_neg he, if_neg hc, if_neg hf, if_pos hpend]
            simp only [hrec]
          · refine ⟨e2, .query :: .unknownLog st :: .sleep pollInterval :: evs, ?_⟩
            rw [pollGo, if_neg he, if_neg hc, if_neg hf, if_neg hpend]
            simp only [hrec]

/-- Witness for C3 (amended): a concrete over-budget state raises at once. -/
theorem wait_for_video_timeout_policy_witness :
    pollGo 10 5 [.ok (chars "processing")] 6 0 = (.timeout 5 6, []) :=
  wait_for_video_timeout_policy.1 [.ok (chars "processing")] 10 5 6 0 (by omega)

/-- C8: an unrecognized status string from a successful query is transient:
the poller logs it, sleeps the poll interval, and re-queries with the retry
counter reset; it never raises because of the status value — the final
result is the same as if the status had been `processing`. -/
theorem wait_for_video_unknown_status_transient :
    ∀ (st : List Char) rest pollInterval maxWait elapsed retry,
      elapsed ≤ maxWait →
      st ≠ chars "completed" → st ≠ chars "failed" →
      st ≠ chars "pending" → st ≠ chars "processing" → st ≠ chars "waiting" →
      pollGo pollInterval maxWait (.ok st :: rest) elapsed retry =
        ((pollGo pollInterval maxWait rest (elapsed + pollInterval) 0).1,
          .query :: .unknownLog st :: .sleep pollInterval ::
            (pollGo pollInterval maxWait rest (elapsed + pollInterval) 0).2)
      ∧ (pollGo pollInterval maxWait (.ok st :: rest) elapsed retry).1 =
          (pollGo pollInterval maxWait
            (.ok (chars "processing") :: rest) elapsed retry).1 := by
  intro st rest pollInterval maxWait elapsed retry he h1 h2 h3 h4 h5
  have hstep : pollGo pollInterval maxWait (.ok st :: rest) elapsed retry =
      ((pollGo pollInterval maxWait rest (elapsed + pollInterval) 0).1,
        .query :: .unknownLog st :: .sleep pollInterval ::
          (pollGo pollInterval maxWait rest (elapsed + pollInterval) 0).2) := by
    rw [pollGo, if_neg (by omega), if_neg h1, if_neg h2,
      if_neg (by tauto)]
  refine ⟨hstep, ?_⟩
  rw [hstep, pollGo, if_neg (by omega), if_neg (by decide), if_neg (by decide),
    if_pos (by right; left; rfl)]

/-- Witness for C8 at a concrete unknown status. -/
theorem wait_for_video_unknown_status_transient_witness :
    pollGo 10 900 [.ok (chars "rendering")] 0 0 =
      ((pollGo 10 900 [] 10 0).1,
        .query :: .unknownLog (chars "rendering") :: .sleep 10 ::
          (pollGo 10 900 [] 10 0).2)
    ∧ (pollGo 10 900 [.ok (chars "rendering")] 0 0).1 =
        (pollGo 10 900 [.ok (chars "processing")] 0 0).1 :=
  wait_for_video_unknown_status_transient (chars "rendering") [] 10 900 0 0
    (by omega) (by decide) (by decide) (by decide) (by decide) (by decide)

/-! ## Resumable YouTube upload: tools/youtube_upload.py -/

/-- Retry settings of the upload loop (lines 35-40). -/
def MAX_RETRIES : Nat := 10

/-- The fixed tuple of low-level I/O and connection exception types that the
upload loop catches, by qualified name. -/
def RETRIABLE_EXCEPTIONS : List (List Char) :=
  [chars "httplib2.HttpLib2Error", chars "IOError",
   chars "http.client.NotConnected", chars "http.client.IncompleteRead",
   chars "http.client.ImproperConnectionState",
   chars "http.client.CannotSendRequest", chars "http.client.CannotSendHeader",
   chars "http.client.ResponseNotReady", chars "http.client.BadStatusLine"]

/-- HTTP statuses of a `googleapiclient` `HttpError` that are retried. -/
def RETRIABLE_STATUS_CODES : List Nat := [500, 502, 503, 504]

/-- Outcome of one `request.next_chunk()` call: progress, the final
response carrying the video id, an `HttpError` with a status, or some
other raised exception identified by its qualified type name. -/
inductive ChunkOutcome where
  | progress : Nat → ChunkOutcome
  | done : List Char → ChunkOutcome
  | httpErr : Nat → ChunkOutcome
  | exc : List Char → ChunkOutcome
deriving DecidableEq

/-- Observable actions of the upload loop. -/
inductive UEvent where
  | chunkRequest : UEvent
  | sleep : Nat → UEvent
deriving DecidableEq

/-- How the upload loop ends. -/
inductive UploadRes where
  | success : List Char → UploadRes
  | maxRetriesExceeded : UploadRes
  | fatalHttp : Nat → UploadRes
  | uncaught : List Char → UploadRes
  | starved : Nat → UploadRes
deriving DecidableEq

/-- The `while response is None` retry loop of `upload_video`
(lines 158-190): retriable HTTP statuses and the fixed exception tuple bump
the retry counter, abort past `MAX_RETRIES`, and otherwise sleep
`2 ** retry_count` seconds before the next chunk; anything else is fatal at
once. -/
def uploadGo (outcomes : List ChunkOutcome) (retry : Nat) : UploadRes × List UEvent :=
  match outcomes with
  | [] => (.starved retry, [])
  | .progress _ :: rest =>
      let r := uploadGo rest retry
      (r.1, .chunkRequest :: r.2)
  | .done vid :: _ => (.success vid, [.chunkRequest])
  | .httpErr s :: rest =>
      if s ∈ RETRIABLE_STATUS_CODES then
        if MAX_RETRIES < retry + 1 then (.maxRetriesExceeded, [.chunkRequest])
        else
          let r := uploadGo rest (retry + 1)
          (r.1, .chunkRequest :: .sleep (2 ^ (retry + 1)) :: r.2)
      else (.fatalHttp s, [.chunkRequest])
  | .exc n :: rest =>
      if n ∈ RETRIABLE_EXCEPTIONS then
        if MAX_RETRIES < retry + 1 then (.maxRetriesExceeded, [.chunkRequest])
        else
          let r := uploadGo rest (retry + 1)
          (r.1, .chunkRequest :: .sleep (2 ^ (retry + 1)) :: r.2)
      else (.uncaught n, [.chunkRequest])

/-- C9: a chunk failure with status 500/502/503/504 or one of the fixed
exception types is retried after sleeping `2 ^ retryCount` seconds
(exponential backoff), capped at `MAX_RETRIES = 10` attempts: an 11th
consecutive retriable failure surfaces the error, with no further chunk
requests; any other HTTP status or exception aborts immediately without
retry. -/
theorem upload_video_chunk_retry_policy :
    (∀ s rest retry, s ∈ RETRIABLE_STATUS_CODES → retry + 1 ≤ MAX_RETRIES →
        uploadGo (.httpErr s :: rest) retry =
          ((uploadGo rest (retry + 1)).1,
            .chunkRequest :: .sleep (2 ^ (retry + 1)) :: (uploadGo rest (retry + 1)).2))
    ∧ (∀ n rest retry, n ∈ RETRIABLE_EXCEPTIONS → retry + 1 ≤ MAX_RETRIES →
        uploadGo (.exc n :: rest) retry =
          ((uploadGo rest (retry + 1)).1,
            .chunkRequest :: .sleep (2 ^ (retry + 1)) :: (uploadGo rest (retry + 1)).2))
    ∧ (∀ rest, uploadGo (List.replicate 11 (.httpErr 503) ++ rest) 0 =
        (.maxRetriesExceeded,
          [.chunkRequest, .sleep 2, .chunkRequest, .sleep 4, .chunkRequest, .sleep 8,
           .chunkRequest, .sleep 16, .chunkRequest, .sleep 32, .chunkRequest, .sleep 64,
           .chunkRequest, .sleep 128, .chunkRequest, .sleep 256, .chunkRequest,
           .sleep 512, .chunkRequest, .sleep 1024, .chunkRequest]))
    ∧ (∀ s rest retry, s ∉ RETRIABLE_STATUS_CODES →
        uploadGo (.httpErr s :: rest) retry = (.fatalHttp s, [.chunkRequest]))
    ∧ (∀ n rest retry, n ∉ RETRIABLE_EXCEPTIONS →
        uploadGo (.exc n :: rest) retry = (.uncaught n, [.chunkRequest])) := by
  refine ⟨?_, ?_, ?_, ?_, ?_⟩
  · intro s rest retry hs hr
    rw [uploadGo, if_pos hs, if_neg (by omega)]
  · intro n rest retry hn hr
    rw [uploadGo, if_pos hn, if_neg (by omega)]
  · intro rest
    simp only [List.replicate, List.cons_append, List.nil_append]
    rw [uploadGo, if_pos (by decide), if_neg (by decide)]
    rw [uploadGo, if_pos (by decide), if_neg (by decide)]
    rw [uploadGo, if_pos (by decide), if_neg (by decide)]
    rw [uploadGo, if_pos (by decide), if_neg (by decide)]
    rw [uploadGo, if_pos (by decide), if_neg (by decide)]
    rw [uploadGo, if_pos (by decide), if_neg (by decide)]
    rw [uploadGo, if_pos (by decide), if_neg (by decide)]
    rw [uploadGo, if_pos (by decide), if_neg (by decide)]
    rw [uploadGo, if_pos (by decide), if_neg (by decide)]
    rw [uploadGo, if_pos (by decide), if_neg (by decide)]
    rw [uploadGo, if_pos (by decide), if_pos (by decide)]
    decide
  · intro s rest retry hs
    rw [uploadGo, if_neg hs]
  · intro n rest retry hn
    rw [uploadGo, if_neg hn]

/-- Witness for C9: one retriable 500 retried with a 2-second sleep. -/
theorem upload_video_chunk_retry_policy_witness :
    uploadGo [.httpErr 500] 0 =
      ((uploadGo [] 1).1, .chunkRequest :: .sleep 2 :: (uploadGo [] 1).2) :=
  upload_video_chunk_retry_policy.1 500 [] 0 (by decide) (by decide)

/-! ## upload_video metadata handling (C10) -/

/-- Title validation (lines 114-116): over-long titles are truncated to the
first 100 characters, with only a printed warning. -/
def prepare_title (title : List Char) : List Char :=
  if 100 < title.length then title.take 100 else title

/-- Description validation (lines 118-120): a non-empty over-long
description is truncated to the first 5000 characters. -/
def prepare_description (description : List Char) : List Char :=
  if description ≠ [] ∧ 5000 < description.length then description.take 5000
  else description

/-- The request metadata built by `upload_video` (lines 126-137). -/
structure VideoBody where
  title : List Char
  description : List Char
  tags : List (List Char)
  categoryId : List Char
  privacyStatus : List Char
  selfDeclaredMadeForKids : Bool
deriving DecidableEq

/-- Assemble the metadata body from the (validated) inputs. -/
def upload_video_body (title description : List Char) (tags : List (List Char))
    (categoryId privacyStatus : List Char) : VideoBody :=
  { title := prepare_title title
    description := prepare_description description
    tags := tags
    categoryId := categoryId
    privacyStatus := privacyStatus
    selfDeclaredMadeForKids := false }

/-- Errors surfaced by `upload_video`. -/
inductive YtErr where
  | fileNotFound : YtErr
  | maxRetries : YtErr
  | fatalHttp : Nat → YtErr
  | uncaught : List Char → YtErr
  | starved : Nat → YtErr
deriving DecidableEq

/-- The dict returned by `upload_video` (lines 200-205). -/
structure YtResult where
  video_id : List Char
  url : List Char
  title : List Char
  privacy_status : List Char
deriving DecidableEq

/-- `upload_video(video_path, title, description, tags, category_id,
privacy_status)`: check the file, validate metadata, then run the chunked
upload loop from retry counter 0. -/
def upload_video (videoExists : Bool) (outcomes : List ChunkOutcome)
    (title description : List Char) (tags : List (List Char))
    (categoryId privacyStatus : List Char) : Except YtErr YtResult :=
  if videoExists = false then .error .fileNotFound
  else
    let body := upload_video_body title description tags categoryId privacyStatus
    match (uploadGo outcomes 0).1 with
    | .success vid =>
        .ok { video_id := vid
              url := chars "https://www.youtube.com/watch?v=" ++ vid
              title := body.title
              privacy_status := privacyStatus }
    | .maxRetriesExceeded => .error .maxRetries
    | .fatalHttp s => .error (.fatalHttp s)
    | .uncaught n => .error (.uncaught n)
    | .starved r => .error (.starved r)

/-- C10: an over-long title or an over-long description (each on its own)
does not make `upload_video` reject the request: a title longer than 100
characters is truncated to its first 100 — whatever the description — the
upload proceeds, and the returned title field is the truncated title; a
description longer than 5000 characters is truncated to its first 5000 —
whatever the title — and the upload proceeds. -/
theorem upload_video_truncates_long_metadata :
    (∀ (title description : List Char) outcomes tags categoryId privacyStatus vid,
      100 < title.length →
      (uploadGo outcomes 0).1 = .success vid →
      upload_video true outcomes title description tags categoryId privacyStatus =
        .ok { video_id := vid
              url := chars "https://www.youtube.com/watch?v=" ++ vid
              title := title.take 100
              privacy_status := privacyStatus }
      ∧ (upload_video_body title description tags categoryId privacyStatus).title =
          title.take 100)
    ∧ (∀ (title description : List Char) outcomes tags categoryId privacyStatus vid,
      5000 < description.length →
      (uploadGo outcomes 0).1 = .success vid →
      upload_video true outcomes title description tags categoryId privacyStatus =
        .ok { video_id := vid
              url := chars "https://www.youtube.com/watch?v=" ++ vid
              title := prepare_title title
              privacy_status := privacyStatus }
      ∧ (upload_video_body title description tags categoryId
          privacyStatus).description = description.take 5000) := by
  constructor
  · intro title description outcomes tags categoryId privacyStatus vid ht hrun
    have htitle : prepare_title title = title.take 100 := by
      rw [prepare_title, if_pos ht]
    refine ⟨?_, htitle⟩
    rw [upload_video, if_neg (by decide)]
    simp only [hrun, upload_video_body, htitle]
  · intro title description outcomes tags categoryId privacyStatus vid hd hrun
    have hdesc : prepare_description description = description.take 5000 := by
      have hne : description ≠ [] := by
        intro h
        rw [h] at hd
        simp at hd
      rw [prepare_description, if_pos ⟨hne, hd⟩]
    refine ⟨?_, hdesc⟩
    rw [upload_video, if_neg (by decide)]
    simp only [hrun, upload_video_body]

/-- Witness for C10: a 101-character title with a short description, and a
short title with a 5001-character description. -/
theorem upload_video_truncates_long_metadata_witness :
    (upload_video true [.done (chars "vid9")] (List.replicate 101 't')
        (chars "ok") [] (chars "22") (chars "private") =
      .ok { video_id := chars "vid9"
            url := chars "https://www.youtube.com/watch?v=" ++ chars "vid9"
            title := (List.replicate 101 't').take 100
            privacy_status := chars "private" }
      ∧ (upload_video_body (List.replicate 101 't') (chars "ok") []
          (chars "22") (chars "private")).title = (List.replicate 101 't').take 100)
    ∧ (upload_video true [.done (chars "vid9")] (chars "T")
        (List.replicate 5001 'd') [] (chars "22") (chars "private") =
      .ok { video_id := chars "vid9"
            url := chars "https://www.youtube.com/watch?v=" ++ chars "vid9"
            title := prepare_title (chars "T")
            privacy_status := chars "private" }
      ∧ (upload_video_body (chars "T") (List.replicate 5001 'd') []
          (chars "22") (chars "private")).description =
          (List.replicate 5001 'd').take 5000) :=
  ⟨upload_video_truncates_long_metadata.1 (List.replicate 101 't') (chars "ok")
      [.done (chars "vid9")] [] (chars "22") (chars "private") (chars "vid9")
      (by rw [List.length_replicate]; omega) (by rw [uploadGo]),
    upload_video_truncates_long_metadata.2 (chars "T") (List.replicate 5001 'd')
      [.done (chars "vid9")] [] (chars "22") (chars "private") (chars "vid9")
      (by rw [List.length_replicate]; omega) (by rw [uploadGo])⟩

/-! ## String utilities shared by the embeddings -/

/-- Python substring test `pat in s` — does `pat` occur as a prefix of some
suffix of `s`? -/
def containsSub (pat : List Char) : List Char → Bool
  | [] => pat.isPrefixOf []
  | c :: rest => pat.isPrefixOf (c :: rest) || containsSub pat rest

/-- Fuel-indexed Python `s.replace(pat, "")` for nonempty `pat`: scan left
to right, skipping each non-overlapping occurrence of `pat`.  Any
`fuel ≥ s.length` computes the full scan. -/
def removeAllFuel (pat : List Char) : Nat → List Char → List Char
  | _, [] => []
  | 0, s => s
  | fuel + 1, c :: rest =>
      if pat.isPrefixOf (c :: rest) then
        removeAllFuel pat fuel (List.drop pat.length (c :: rest))
      else c :: removeAllFuel pat fuel rest

/-- Python `s.replace(pat, "")` for nonempty `pat`. -/
def replaceRemove (s pat : List Char) : List Char :=
  removeAllFuel pat s.length s

/-- Python `s.rsplit(sep, 1)` into `(before, after)` when `sep` occurs in
`s`; `(s, [])` otherwise (a case the verified code paths never reach). -/
def rsplitOnce (sep : Char) (s : List Char) : List Char × List Char :=
  let rev := s.reverse
  match rev.dropWhile (fun c => !(c == sep)) with
  | [] => (s, [])
  | _ :: pre => (pre.reverse, (rev.takeWhile (fun c => !(c == sep))).reverse)

/-- The final path component, Python `Path(s).name`. -/
def pyName (s : List Char) : List Char :=
  if s.contains '/' then (rsplitOnce '/' s).2 else s

/-- Python `Path(name).stem` on a file name: the name without its final
extension. -/
def pathStem (name : List Char) : List Char :=
  if name.contains '.' then
    if (rsplitOnce '.' name).1 = [] then name else (rsplitOnce '.' name).1
  else name

theorem containsSub_append_left {pat b : List Char} (x : List Char)
    (h : containsSub pat b = true) : containsSub pat (b ++ x) = true := by
  induction b with
  | nil =>
      have hp : pat = [] := by
        cases pat with
        | nil => rfl
        | cons p ps => simp [containsSub, List.isPrefixOf] at h
      subst hp
      cases x with
      | nil => simp [containsSub, List.isPrefixOf]
      | cons c cs => simp [containsSub, List.isPrefixOf]
  | cons c b' ih =>
      rw [containsSub] at h
      rw [List.cons_append, containsSub]
      rcases Bool.or_eq_true_iff.mp h with h1 | h2
      · have hpre : pat <+: c :: b' := List.isPrefixOf_iff_prefix.mp h1
        have : pat <+: c :: (b' ++ x) := by
          have := hpre.trans (List.prefix_append (c :: b') x)
          simpa using this
        simp [List.isPrefixOf_iff_prefix.mpr this]
      · simp [ih h2]

theorem containsSub_suffix_self (pat b : List Char) :
    containsSub pat (b ++ pat) = true := by
  induction b with
  | nil =>
      cases pat with
      | nil => simp [containsSub, List.isPrefixOf]
      | cons p ps =>
          rw [List.nil_append, containsSub]
          simp [List.isPrefixOf_iff_prefix.mpr (List.prefix_refl _)]
  | cons c b' ih =>
      rw [List.cons_append, containsSub]
      simp [ih]

theorem removeAllFuel_nil (pat : List Char) (fuel : Nat) :
    removeAllFuel pat fuel [] = [] := by
  cases fuel <;> rfl

theorem removeAllFuel_of_not_contains (pat : List Char) :
    ∀ (fuel : Nat) (s : List Char), s.length ≤ fuel →
      containsSub pat s = false → removeAllFuel pat fuel s = s := by
  intro fuel
  induction fuel with
  | zero =>
      intro s hl _
      have : s = [] := List.length_eq_zero.mp (Nat.le_zero.mp hl)
      subst this
      rfl
  | succ f ih =>
      intro s hl hc
      cases s with
      | nil => exact removeAllFuel_nil pat _
      | cons c rest =>
          rw [containsSub, Bool.or_eq_false_iff] at hc
          rw [removeAllFuel, if_neg (by simp [hc.1])]
          have := ih rest (by simpa using Nat.lt_succ_iff.mp hl) hc.2
          rw [this]

theorem removeAllFuel_final_occurrence {pat : List Char} (hp : pat ≠ []) :
    ∀ (b : List Char) (fuel : Nat), (b ++ pat).length ≤ fuel →
      (∀ i < b.length, pat.isPrefixOf (List.drop i (b ++ pat)) = false) →
      removeAllFuel pat fuel (b ++ pat) = b := by
  intro b
  induction b with
  | nil =>
      intro fuel hl _
      cases pat with
      | nil => exact absurd rfl hp
      | cons p ps =>
          rw [List.nil_append]
          cases fuel with
          | zero => simp at hl
          | succ f =>
              rw [removeAllFuel,
                if_pos (by simp [List.isPrefixOf_iff_prefix.mpr (List.prefix_refl _)]),
                List.drop_length]
              exact removeAllFuel_nil _ _
  | cons c b' ih =>
      intro fuel hl hocc
      rw [List.cons_append] at hl ⊢
      cases fuel with
      | zero => simp at hl
      | succ f =>
          have h0 : pat.isPrefixOf (c :: (b' ++ pat)) = false := by
            have := hocc 0 (by simp)
            simpa using this
          rw [removeAllFuel, if_neg (by simp [h0])]
          have hrec := ih f
            (by simp only [List.length_append, List.length_cons] at hl ⊢; omega)
            (fun i hi => by
              have := hocc (i + 1) (by simpa using Nat.succ_lt_succ hi)
              simpa [List.drop_succ_cons] using this)
          rw [hrec]

theorem takeWhile_dropWhile_middle (p : Char → Bool) :
    ∀ (l1 : List Char) (x : Char) (l2 : List Char), (∀ c ∈ l1, p c = true) →
      p x = false →
      (l1 ++ x :: l2).takeWhile p = l1 ∧ (l1 ++ x :: l2).dropWhile p = x :: l2 := by
  intro l1
  induction l1 with
  | nil =>
      intro x l2 _ hx
      constructor
      · rw [List.nil_append, List.takeWhile_cons, hx]
        simp
      · rw [List.nil_append, List.dropWhile_cons, hx]
        simp
  | cons a l1' ih =>
      intro x l2 h hx
      have ha : p a = true := h a (List.mem_cons_self a l1')
      have hrest := ih x l2 (fun c hc => h c (List.mem_cons_of_mem _ hc)) hx
      constructor
      · rw [List.cons_append, List.takeWhile_cons, ha]
        simp [hrest.1]
      · rw [List.cons_append, List.dropWhile_cons, ha]
        simp [hrest.2]

theorem rsplitOnce_append {sep : Char} {b v : List Char} (hv : sep ∉ v) :
    rsplitOnce sep (b ++ sep :: v) = (b, v) := by
  have hrev : (b ++ sep :: v).reverse = v.reverse ++ sep :: b.reverse := by
    rw [List.reverse_append, List.reverse_cons, List.append_assoc,
      List.singleton_append]
  have hall : ∀ c ∈ v.reverse, (!(c == sep)) = true := by
    intro c hc
    have : c ∈ v := List.mem_reverse.mp hc
    simp only [Bool.not_eq_true', beq_eq_false_iff_ne, ne_eq]
    intro h
    exact hv (h ▸ this)
  have hsep : (!(sep == sep)) = false := by simp
  obtain ⟨htake, hdrop⟩ :=
    takeWhile_dropWhile_middle (fun c => !(c == sep)) v.reverse sep b.reverse
      hall hsep
  rw [rsplitOnce]
  simp only [hrev, htake, hdrop, List.reverse_reverse]

/-! ## Filename derivation: run_pipeline.py, continue_with_audio -/

/-- The new-convention suffix for variant A. -/
def patA : List Char := chars "_audio_OptionA"

/-- The new-convention suffix for variant B. -/
def patB : List Char := chars "_audio_OptionB"

/-- The `(base_name, selected_option)` derivation from the audio file stem
(run_pipeline.py lines 217-228): new convention when `_audio_OptionA` or
`_audio_OptionB` occurs in the stem, legacy `_OptionA`/`_OptionB` suffix
split at the last underscore, and otherwise the whole stem with variant
`Custom`. -/
def deriveNames (audio_stem : List Char) : List Char × List Char :=
  if containsSub patA audio_stem || containsSub patB audio_stem then
    (replaceRemove (replaceRemove audio_stem patA) patB,
      if containsSub patA audio_stem then chars "OptionA" else chars "OptionB")
  else if (chars "_OptionA").isSuffixOf audio_stem ||
      (chars "_OptionB").isSuffixOf audio_stem then
    ((rsplitOnce '_' audio_stem).1, (rsplitOnce '_' audio_stem).2)
  else (audio_stem, chars "Custom")

/-- C1: the two-tier naming convention.  A stem following the new
convention (`base` plus `_audio_OptionA`/`_audio_OptionB`, the suffix
occurring only there) derives `(base, OptionA/B)`; a legacy stem ending in
`_OptionA`/`_OptionB` splits at the final underscore; any other stem is
taken whole with variant `Custom`; and the three documented examples. -/
theorem continue_with_audio_filename_derivation :
    (∀ b : List Char,
        (∀ i < b.length, patA.isPrefixOf (List.drop i (b ++ patA)) = false) →
        containsSub patB (b ++ patA) = false →
        deriveNames (b ++ patA) = (b, chars "OptionA"))
    ∧ (∀ b : List Char,
        containsSub patA (b ++ patB) = false →
        (∀ i < b.length, patB.isPrefixOf (List.drop i (b ++ patB)) = false) →
        deriveNames (b ++ patB) = (b, chars "OptionB"))
    ∧ (∀ b v : List Char,
        containsSub patA (b ++ '_' :: v) = false →
        containsSub patB (b ++ '_' :: v) = false →
        (v = chars "OptionA" ∨ v = chars "OptionB") →
        deriveNames (b ++ '_' :: v) = (b, v))
    ∧ (∀ stem : List Char,
        containsSub patA stem = false → containsSub patB stem = false →
        (chars "_OptionA").isSuffixOf stem = false →
        (chars "_OptionB").isSuffixOf stem = false →
        deriveNames stem = (stem, chars "Custom"))
    ∧ deriveNames (pathStem (chars "sample_script_audio_OptionA.mp3")) =
        (chars "sample_script", chars "OptionA")
    ∧ deriveNames (pathStem (chars "sample_script_OptionB.mp3")) =
        (chars "sample_script", chars "OptionB")
    ∧ deriveNames (pathStem (chars "custom.mp3")) =
        (chars "custom", chars "Custom") := by
  refine ⟨?_, ?_, ?_, ?_, by decide, by decide, by decide⟩
  · intro b hocc hB
    have hA : containsSub patA (b ++ patA) = true := containsSub_suffix_self patA b
    have hbase1 : replaceRemove (b ++ patA) patA = b :=
      removeAllFuel_final_occurrence (by decide) b (b ++ patA).length
        (Nat.le_refl _) hocc
    have hBb : containsSub patB b = false := by
      by_contra h
      rw [containsSub_append_left patA (Bool.of_not_eq_false h)] at hB
      exact Bool.true_eq_false.mp hB
    have hbase2 : replaceRemove b patB = b :=
      removeAllFuel_of_not_contains patB b.length b (Nat.le_refl _) hBb
    rw [deriveNames, if_pos (by simp [hA]), hbase1, hbase2, if_pos (by simp [hA])]
  · intro b hA hocc
    have hB : containsSub patB (b ++ patB) = true := containsSub_suffix_self patB b
    have hbase1 : replaceRemove (b ++ patB) patA = b ++ patB :=
      removeAllFuel_of_not_contains patA (b ++ patB).length (b ++ patB)
        (Nat.le_refl _) hA
    have hbase2 : replaceRemove (b ++ patB) patB = b :=
      removeAllFuel_final_occurrence (by decide) b (b ++ patB).length
        (Nat.le_refl _) hocc
    rw [deriveNames, if_pos (by simp [hB]), hbase1, hbase2, if_neg (by simp [hA])]
  · intro b v hA hB hv
    have hnu : '_' ∉ v := by
      rcases hv with rfl | rfl <;> decide
    have hsuf : ((chars "_OptionA").isSuffixOf (b ++ '_' :: v) ||
        (chars "_OptionB").isSuffixOf (b ++ '_' :: v)) = true := by
      rcases hv with rfl | rfl
      · have : chars "_OptionA" <:+ b ++ '_' :: chars "OptionA" := by
          have h1 : '_' :: chars "OptionA" = chars "_OptionA" := by decide
          rw [h1]
          exact List.suffix_append b _
        simp [List.isSuffixOf_iff_suffix.mpr this]
      · have : chars "_OptionB" <:+ b ++ '_' :: chars "OptionB" := by
          have h1 : '_' :: chars "OptionB" = chars "_OptionB" := by decide
          rw [h1]
          exact List.suffix_append b _
        simp [List.isSuffixOf_iff_suffix.mpr this]
    rw [deriveNames, if_neg (by simp [hA, hB]), if_pos hsuf,
      rsplitOnce_append hnu]
  · intro stem hA hB hsA hsB
    rw [deriveNames, if_neg (by simp [hA, hB]), if_neg (by simp [hsA, hsB])]

/-- Witness for C1: the new-convention case at a one-character base. -/
theorem continue_with_audio_filename_derivation_witness :
    deriveNames (chars "x" ++ patA) = (chars "x", chars "OptionA") :=
  continue_with_audio_filename_derivation.1 (chars "x") (by decide) (by decide)

/-! ## Audio tags: tools/elevenlabs_tts.py, strip_audio_tags / has_audio_tags

`strip_audio_tags` is `re.sub(r'\[[\w\s]+\]\s*', '', text)` and
`has_audio_tags` is `re.search(r'\[[\w\s]+\]', text)`.  Because `]` is in
neither character class, a match at a position is exactly: `[`, then the
maximal nonempty run of word/space characters, then `]` (then for `sub` the
maximal run of whitespace).  We embed that scan directly, on the ASCII
fragment of the classes. -/

/-- ASCII `\w`: letters, digits, underscore. -/
def isWordChar (c : Char) : Bool := c.isAlphanum || c == '_'

/-- ASCII `\s`. -/
def isSpaceChar (c : Char) : Bool :=
  c == ' ' || c == '\t' || c == '\n' || c == '\r' || c == '\x0b' || c == '\x0c'

/-- A character of the class `[\w\s]`. -/
def isTagChar (c : Char) : Bool := isWordChar c || isSpaceChar c

/-- Does `\[[\w\s]+\]` match at the head of `l`? -/
def hasTagAt (l : List Char) : Bool :=
  match l with
  | [] => false
  | c :: rest =>
      c == '[' && !(rest.takeWhile isTagChar).isEmpty &&
        (match rest.dropWhile isTagChar with
          | e :: _ => e == ']'
          | [] => false)

/-- Close a candidate tag: the list after the word/space run must start
with `]`; the remainder after the match also drops the trailing `\s*` run. -/
def tagClose (d : List Char) : Option (List Char) :=
  match d with
  | e :: tail => if e = ']' then some (tail.dropWhile isSpaceChar) else none
  | [] => none

/-- If `\[[\w\s]+\]\s*` matches at the head of `l`, the remainder of `l`
after the match. -/
def tagMatch (l : List Char) : Option (List Char) :=
  match l with
  | [] => none
  | c :: rest =>
      if c = '[' then
        if (rest.takeWhile isTagChar).isEmpty then none
        else tagClose (rest.dropWhile isTagChar)
      else none

/-- Fuel-indexed left-to-right scan of `re.sub`: at each position take the
match if any and continue after it, otherwise keep the character.  Any
`fuel ≥ s.length` computes the full scan. -/
def stripTagsFuel : Nat → List Char → List Char
  | _, [] => []
  | 0, s => s
  | fuel + 1, c :: rest =>
      match tagMatch (c :: rest) with
      | some r => stripTagsFuel fuel r
      | none => c :: stripTagsFuel fuel rest

/-- `strip_audio_tags(text)` (lines 46-53). -/
def strip_audio_tags (s : List Char) : List Char := stripTagsFuel s.length s

/-- `has_audio_tags(text)` (lines 56-58). -/
def has_audio_tags : List Char → Bool
  | [] => false
  | c :: rest => hasTagAt (c :: rest) || has_audio_tags rest

/-- Every `[` in the text opens a well-formed tag span `[w]` with `w` a
nonempty run of word/space characters. -/
def wellFormedTags : List Char → Bool
  | [] => true
  | c :: rest => (if c = '[' then hasTagAt (c :: rest) else true) && wellFormedTags rest

theorem tagMatch_isSome_iff (l : List Char) :
    (tagMatch l).isSome = hasTagAt l := by
  cases l with
  | nil => rfl
  | cons c rest =>
      rw [tagMatch, hasTagAt]
      by_cases hc : c = '['
      · rw [if_pos hc]
        by_cases hte : (rest.takeWhile isTagChar).isEmpty
        · simp [hte, hc]
        · cases hd : rest.dropWhile isTagChar with
          | nil => simp [hte, hc, hd, tagClose]
          | cons e tail =>
              by_cases he : e = ']'
              · simp [hte, hc, hd, he, tagClose]
              · simp [hte, hc, hd, he, tagClose]
      · simp [hc]

theorem tagMatch_suffix {l r : List Char} (h : tagMatch l = some r) : r <:+ l := by
  cases l with
  | nil => simp [tagMatch] at h
  | cons c rest =>
      rw [tagMatch] at h
      by_cases hc : c = '['
      · rw [if_pos hc] at h
        by_cases hte : (rest.takeWhile isTagChar).isEmpty
        · simp [hte] at h
        · rw [if_neg hte] at h
          cases hd : rest.dropWhile isTagChar with
          | nil => rw [hd] at h; exact absurd h (by simp [tagClose])
          | cons e tail =>
              rw [hd, tagClose] at h
              by_cases he : e = ']'
              · rw [if_pos he, Option.some_inj] at h
                have h1 : tail.dropWhile isSpaceChar <:+ tail :=
                  List.dropWhile_suffix isSpaceChar
                have h2 : tail <:+ e :: tail := List.suffix_cons e tail
                have h3 : e :: tail <:+ rest := hd ▸ List.dropWhile_suffix isTagChar
                have h4 : rest <:+ c :: rest := List.suffix_cons c rest
                exact h ▸ (((h1.trans h2).trans h3).trans h4)
              · simp [he] at h
      · simp [hc] at h

theorem wellFormedTags_suffix :
    ∀ {l r : List Char}, wellFormedTags l = true → r <:+ l →
      wellFormedTags r = true := by
  intro l
  induction l with
  | nil =>
      intro r _ hr
      rw [List.suffix_nil.mp hr]
      rfl
  | cons c rest ih =>
      intro r hw hr
      rcases List.suffix_cons_iff.mp hr with rfl | hr2
      · exact hw
      · rw [wellFormedTags, Bool.and_eq_true] at hw
        exact ih hw.2 hr2

theorem tagMatch_length {l r : List Char} (h : tagMatch l = some r) :
    r.length + 3 ≤ l.length := by
  cases l with
  | nil => simp [tagMatch] at h
  | cons c rest =>
      rw [tagMatch] at h
      by_cases hc : c = '['
      · rw [if_pos hc] at h
        by_cases hte : (rest.takeWhile isTagChar).isEmpty
        · simp [hte] at h
        · rw [if_neg hte] at h
          cases hd : rest.dropWhile isTagChar with
          | nil => rw [hd] at h; exact absurd h (by simp [tagClose])
          | cons e tail =>
              rw [hd, tagClose] at h
              by_cases he : e = ']'
              · rw [if_pos he, Option.some_inj] at h
                have htw : 1 ≤ (rest.takeWhile isTagChar).length := by
                  rcases List.isEmpty_iff.not.mp hte |> List.length_pos.mpr with h1
                  exact h1
                have hsplit : rest.length =
                    (rest.takeWhile isTagChar).length + (e :: tail).length := by
                  conv_lhs => rw [← List.takeWhile_append_dropWhile (p := isTagChar) (l := rest)]
                  rw [List.length_append, hd]
                have hr : r.length ≤ tail.length := by
                  rw [← h]
                  exact (List.dropWhile_suffix isSpaceChar).length_le
                simp only [List.length_cons] at hsplit ⊢
                omega
              · simp [he] at h
      · simp [hc] at h

theorem stripTagsFuel_no_bracket :
    ∀ (fuel : Nat) (s : List Char), s.length ≤ fuel →
      wellFormedTags s = true → '[' ∉ stripTagsFuel fuel s := by
  intro fuel
  induction fuel with
  | zero =>
      intro s hl _
      rw [List.length_eq_zero.mp (Nat.le_zero.mp hl)]
      simp [stripTagsFuel]
  | succ f ih =>
      intro s hl hw
      cases s with
      | nil => simp [stripTagsFuel]
      | cons c rest =>
          have hw2 : wellFormedTags (c :: rest) = true := hw
          rw [wellFormedTags, Bool.and_eq_true] at hw
          cases hm : tagMatch (c :: rest) with
          | some r =>
              rw [stripTagsFuel, hm]
              have hlen : r.length ≤ f := by
                have := tagMatch_length hm
                simp only [List.length_cons] at this hl
                omega
              exact ih r hlen (wellFormedTags_suffix hw2 (tagMatch_suffix hm))
          | none =>
              rw [stripTagsFuel, hm]
              have hc : ¬ c = '[' := by
                intro hc
                have h1 := hw.1
                rw [if_pos hc] at h1
                have h2 : (tagMatch (c :: rest)).isSome = true := by
                  rw [tagMatch_isSome_iff]
                  exact h1
                rw [hm] at h2
                exact Bool.false_ne_true h2
              intro hmem
              rcases List.mem_cons.mp hmem with rfl | h2
              · exact hc rfl
              · exact ih rest
                  (by simp only [List.length_cons] at hl; omega) hw.2 h2

theorem has_audio_tags_eq_false_of_no_bracket :
    ∀ {l : List Char}, '[' ∉ l → has_audio_tags l = false := by
  intro l
  induction l with
  | nil => intro _; rfl
  | cons c rest ih =>
      intro h
      have hc : ¬ c = '[' := fun hc => h (hc ▸ List.mem_cons_self c rest)
      have hr : '[' ∉ rest := fun hr => h (List.mem_cons_of_mem c hr)
      rw [has_audio_tags, Bool.or_eq_false_iff]
      constructor
      · rw [hasTagAt]
        simp [hc]
      · exact ih hr

theorem has_audio_tags_of_wellformed_bracket :
    ∀ {l : List Char}, wellFormedTags l = true → '[' ∈ l →
      has_audio_tags l = true := by
  intro l
  induction l with
  | nil => intro _ h; simp at h
  | cons c rest ih =>
      intro hw hmem
      rw [wellFormedTags, Bool.and_eq_true] at hw
      rw [has_audio_tags, Bool.or_eq_true_iff]
      by_cases hc : c = '['
      · left
        have := hw.1
        rwa [if_pos hc] at this
      · right
        rcases List.mem_cons.mp hmem with h1 | h2
        · exact absurd h1.symm hc
        · exact ih hw.2 h2

theorem strip_audio_tags_of_no_tags :
    ∀ {t : List Char}, has_audio_tags t = false → strip_audio_tags t = t := by
  have key : ∀ (fuel : Nat) (s : List Char), s.length ≤ fuel →
      has_audio_tags s = false → stripTagsFuel fuel s = s := by
    intro fuel
    induction fuel with
    | zero =>
        intro s hl _
        rw [List.length_eq_zero.mp (Nat.le_zero.mp hl)]
        rfl
    | succ f ih =>
        intro s hl hh
        cases s with
        | nil => rfl
        | cons c rest =>
            rw [has_audio_tags, Bool.or_eq_false_iff] at hh
            have hm : tagMatch (c :: rest) = none := by
              have h1 : (tagMatch (c :: rest)).isSome = false := by
                rw [tagMatch_isSome_iff]
                exact hh.1
              exact Option.not_isSome_iff_eq_none.mp (by simp [h1])
            rw [stripTagsFuel, hm]
            rw [ih rest (by simp only [List.length_cons] at hl; omega) hh.2]
  intro t hh
  exact key t.length t (Nat.le_refl _) hh

/-- C7 counterexample: on `"[a[b] c]"` the single-pass `re.sub` removes
the inner tag `[b] ` and thereby creates the new tag `[ac]`, so
`has_audio_tags` is still true after stripping, against the claimed
`has_audio_tags(strip_audio_tags(t)) = false`. -/
theorem strip_audio_tags_residual_tag_counterexample :
    strip_audio_tags (chars "[a[b] c]") = chars "[ac]"
    ∧ has_audio_tags (strip_audio_tags (chars "[a[b] c]")) = true := by
  constructor <;> decide

/-- C7 (amended): `strip_audio_tags("[excited] Hello there!")` is
`"Hello there!"`; and for every text whose every `[` opens a well-formed
bracket span (only word characters and whitespace, then `]`),
`has_audio_tags` is true before stripping whenever such a span is present,
and false after stripping. -/
theorem strip_audio_tags_wellformed_spec :
    strip_audio_tags (chars "[excited] Hello there!") = chars "Hello there!"
    ∧ (∀ t : List Char, wellFormedTags t = true → '[' ∈ t →
        has_audio_tags t = true)
    ∧ (∀ t : List Char, wellFormedTags t = true →
        has_audio_tags (strip_audio_tags t) = false) := by
  refine ⟨by decide, ?_, ?_⟩
  · intro t hw hmem
    exact has_audio_tags_of_wellformed_bracket hw hmem
  · intro t hw
    exact has_audio_tags_eq_false_of_no_bracket
      (stripTagsFuel_no_bracket t.length t (Nat.le_refl _) hw)

/-- Witness for C7 (amended): a concrete well-formed text. -/
theorem strip_audio_tags_wellformed_spec_witness :
    has_audio_tags (chars "[hi] x") = true
    ∧ has_audio_tags (strip_audio_tags (chars "[hi] x")) = false :=
  ⟨strip_audio_tags_wellformed_spec.2.1 (chars "[hi] x") (by decide) (by decide),
    strip_audio_tags_wellformed_spec.2.2 (chars "[hi] x") (by decide)⟩

/-! ## Synthesis adapter: tools/elevenlabs_tts.py, text_to_speech (dual) -/

/-- An HTTP response from the vendor. -/
structure Resp where
  status : Nat
  body : List Char
deriving DecidableEq

/-- One synthesis request as issued: model, text, voice. -/
structure Req where
  model : List Char
  text : List Char
  voice : List Char
deriving DecidableEq

/-- Configuration and network environment: the optional API key and voice
from the environment, the optional `ELEVENLABS_MODEL` override, and the
response to the n-th HTTP request of the run. -/
structure TtsEnv where
  apiKey : Option (List Char)
  envVoice : Option (List Char)
  envModel : Option (List Char)
  resp : Nat → Resp

/-- Failures of `text_to_speech`. -/
inductive TtsErr where
  | noApiKey : TtsErr
  | noVoice : TtsErr
  | api : Nat → List Char → TtsErr
deriving DecidableEq

/-- `voice_id or get_voice_id()`. -/
def resolveVoice (voice_id : Option (List Char)) (env : TtsEnv) :
    Option (List Char) :=
  match voice_id with
  | some v => some v
  | none => env.envVoice

/-- `DEFAULT_MODEL = os.getenv("ELEVENLABS_MODEL", "eleven_v3")`. -/
def DEFAULT_MODEL (env : TtsEnv) : List Char :=
  env.envModel.getD (chars "eleven_v3")

/-- `FALLBACK_MODEL = "eleven_multilingual_v2"`. -/
def FALLBACK_MODEL : List Char := chars "eleven_multilingual_v2"

/-- `text_to_speech(text, output_path, voice_id, ..., model_id)`
(lines 61-144): resolve key, voice and model, issue the request, and on a
non-200 answer with the `eleven_v3` model strip the audio tags (when
present) and retry once against `FALLBACK_MODEL`; a second non-200 answer
raises with the vendor status and body.  Returns the result, the next
request counter, and the requests issued. -/
def text_to_speech (env : TtsEnv) (k : Nat) (text output_path : List Char)
    (voice_id model_id : Option (List Char)) :
    Except TtsErr (List Char) × Nat × List Req :=
  match env.apiKey with
  | none => (.error .noApiKey, k, [])
  | some _ =>
    match resolveVoice voice_id env with
    | none => (.error .noVoice, k, [])
    | some voice =>
      let model := model_id.getD (DEFAULT_MODEL env)
      let r1 := env.resp k
      let req1 : Req := ⟨model, text, voice⟩
      if r1.status ≠ 200 ∧ model = chars "eleven_v3" then
        let text2 := if has_audio_tags text then strip_audio_tags text else text
        let req2 : Req := ⟨FALLBACK_MODEL, text2, voice⟩
        let r2 := env.resp (k + 1)
        if r2.status ≠ 200 then
          (.error (.api r2.status r2.body), k + 2, [req1, req2])
        else (.ok output_path, k + 2, [req1, req2])
      else
        if r1.status ≠ 200 then (.error (.api r1.status r1.body), k + 1, [req1])
        else (.ok output_path, k + 1, [req1])

/-- Python `Path(s).parent` rendered as a string. -/
def pyParent (s : List Char) : List Char :=
  if s.contains '/' then (rsplitOnce '/' s).1 else chars "."

/-- Python `str(Path(p) / n)` for a relative parent `p`. -/
def pyJoin (p n : List Char) : List Char :=
  if p = chars "." then n else p ++ chars "/" ++ n

/-- The Option A output path of `text_to_speech_dual`. -/
def dualAPath (base : List Char) : List Char :=
  pyJoin (pyParent base) (pathStem (pyName base) ++ chars "_OptionA.mp3")

/-- The Option B output path of `text_to_speech_dual`. -/
def dualBPath (base : List Char) : List Char :=
  pyJoin (pyParent base) (pathStem (pyName base) ++ chars "_OptionB.mp3")

/-- `text_to_speech_dual(text, output_base_path, voice_id)`
(lines 147-191): two sequential `text_to_speech` calls writing the
`_OptionA.mp3` and `_OptionB.mp3` siblings of the base path; each call's
failure propagates and aborts the dual call. -/
def text_to_speech_dual (env : TtsEnv) (k : Nat) (text base : List Char)
    (voice_id : Option (List Char)) :
    Except TtsErr (List Char × List Char) × Nat × List Req :=
  let resA := text_to_speech env k text (dualAPath base) voice_id none
  match resA.1 with
  | .error e => (.error e, resA.2.1, resA.2.2)
  | .ok a =>
      let resB := text_to_speech env resA.2.1 text (dualBPath base) voice_id none
      match resB.1 with
      | .error e => (.error e, resB.2.1, resA.2.2 ++ resB.2.2)
      | .ok b => (.ok (a, b), resB.2.1, resA.2.2 ++ resB.2.2)

theorem text_to_speech_ok_path {env k text p voice_id model_id q}
    (h : (text_to_speech env k text p voice_id model_id).1 = .ok q) : q = p := by
  rw [text_to_speech] at h
  cases hk : env.apiKey with
  | none => rw [hk] at h; simp at h
  | some key =>
      rw [hk] at h
      cases hv : resolveVoice voice_id env with
      | none => rw [hv] at h; simp at h
      | some voice =>
          rw [hv] at h
          simp only at h
          split at h <;> split at h <;> simp_all

theorem dualPaths_ne (base : List Char) : dualAPath base ≠ dualBPath base := by
  rw [dualAPath, dualBPath, pyJoin, pyJoin]
  by_cases hp : pyParent base = chars "."
  · rw [if_pos hp, if_pos hp]
    intro h
    exact absurd (List.append_cancel_left h) (by decide)
  · rw [if_neg hp, if_neg hp]
    intro h
    exact absurd (List.append_cancel_left (List.append_cancel_left h)) (by decide)

/-- C5: when the primary `eleven_v3` request is rejected, the adapter
retries exactly once against `FALLBACK_MODEL` with all bracketed markup
stripped, and a second non-success answer fails the call with the vendor
status and body; exactly two requests are issued. -/
theorem text_to_speech_fallback_policy :
    ∀ (env : TtsEnv) (k : Nat) (text path : List Char)
      (voice_id : Option (List Char)) (key voice : List Char),
      env.apiKey = some key →
      resolveVoice voice_id env = some voice →
      env.envModel = none →
      (env.resp k).status ≠ 200 →
      text_to_speech env k text path voice_id none =
        (if (env.resp (k + 1)).status ≠ 200 then
            .error (.api (env.resp (k + 1)).status (env.resp (k + 1)).body)
          else .ok path,
          k + 2,
          [⟨chars "eleven_v3", text, voice⟩,
           ⟨FALLBACK_MODEL, strip_audio_tags text, voice⟩]) := by
  intro env k text path voice_id key voice hkey hvoice hmodel hfail
  have htext2 : (if has_audio_tags text then strip_audio_tags text else text) =
      strip_audio_tags text := by
    by_cases ht : has_audio_tags text = true
    · rw [if_pos ht]
    · rw [if_neg (by simpa using ht),
        strip_audio_tags_of_no_tags (Bool.not_eq_true _ ▸ ht)]
  have hdm : (none : Option (List Char)).getD (DEFAULT_MODEL env) =
      chars "eleven_v3" := by
    rw [Option.getD_none, DEFAULT_MODEL, hmodel, Option.getD_none]
  rw [text_to_speech, hkey, hvoice]
  simp only [hdm, htext2, eq_self_iff_true, and_true]
  rw [if_pos hfail]
  split <;> rfl

/-- Environment for the C5 witness: every request is rejected with 500. -/
def ttsFailEnv : TtsEnv :=
  { apiKey := some (chars "key")
    envVoice := some (chars "voiceX")
    envModel := none
    resp := fun _ => ⟨500, chars "unavailable"⟩ }

/-- Witness for C5 at a concrete rejecting environment. -/
theorem text_to_speech_fallback_policy_witness :
    text_to_speech ttsFailEnv 0 (chars "[sad] hi") (chars "o.mp3") none none =
      (if (ttsFailEnv.resp 1).status ≠ 200 then
          .error (.api (ttsFailEnv.resp 1).status (ttsFailEnv.resp 1).body)
        else .ok (chars "o.mp3"),
        2,
        [⟨chars "eleven_v3", chars "[sad] hi", chars "voiceX"⟩,
         ⟨FALLBACK_MODEL, strip_audio_tags (chars "[sad] hi"), chars "voiceX"⟩]) :=
  text_to_speech_fallback_policy ttsFailEnv 0 (chars "[sad] hi") (chars "o.mp3")
    none (chars "key") (chars "voiceX") rfl rfl rfl (by decide)

/-- C6: a successful dual call returns two distinct artifact paths, and a
failure of either underlying call fails the whole dual call with that
error (no partial pair). -/
theorem text_to_speech_dual_pair_policy :
    (∀ (env : TtsEnv) (k : Nat) (text base : List Char)
        (voice_id : Option (List Char)) res k2 tr,
        text ≠ [] →
        text_to_speech_dual env k text base voice_id = (.ok res, k2, tr) →
        res.1 ≠ res.2)
    ∧ (∀ env k (text base : List Char) voice_id e,
        (text_to_speech env k text (dualAPath base) voice_id none).1 = .error e →
        (text_to_speech_dual env k text base voice_id).1 = .error e)
    ∧ (∀ env k (text base : List Char) voice_id a e,
        (text_to_speech env k text (dualAPath base) voice_id none).1 = .ok a →
        (text_to_speech env
            (text_to_speech env k text (dualAPath base) voice_id none).2.1
            text (dualBPath base) voice_id none).1 = .error e →
        (text_to_speech_dual env k text base voice_id).1 = .error e) := by
  refine ⟨?_, ?_, ?_⟩
  · intro env k text base voice_id res k2 tr _ hEq
    simp only [text_to_speech_dual] at hEq
    cases hA : (text_to_speech env k text (dualAPath base) voice_id none).1 with
    | error e => rw [hA] at hEq; simp at hEq
    | ok a =>
        rw [hA] at hEq
        simp only at hEq
        cases hB : (text_to_speech env
            (text_to_speech env k text (dualAPath base) voice_id none).2.1
            text (dualBPath base) voice_id none).1 with
        | error e => rw [hB] at hEq; simp at hEq
        | ok b =>
            rw [hB] at hEq
            simp only [Prod.mk.injEq, Except.ok.injEq] at hEq
            rw [← hEq.1]
            rw [text_to_speech_ok_path hA, text_to_speech_ok_path hB]
            exact dualPaths_ne base
  · intro env k text base voice_id e hA
    simp only [text_to_speech_dual]
    rw [hA]
  · intro env k text base voice_id a e hA hB
    simp only [text_to_speech_dual]
    rw [hA]
    simp only
    rw [hB]

/-- Environment for the C6 witness: every request succeeds. -/
def ttsOkEnv : TtsEnv :=
  { apiKey := some (chars "key")
    envVoice := some (chars "v")
    envModel := none
    resp := fun _ => ⟨200, chars "audio"⟩ }

/-- Witness for C6: the two artifact paths of a concrete successful dual
call are distinct. -/
theorem text_to_speech_dual_pair_policy_witness :
    (chars "out/test_OptionA.mp3") ≠ (chars "out/test_OptionB.mp3") :=
  text_to_speech_dual_pair_policy.1 ttsOkEnv 0 (chars "hi") (chars "out/test")
    none (chars "out/test_OptionA.mp3", chars "out/test_OptionB.mp3") 2
    [⟨chars "eleven_v3", chars "hi", chars "v"⟩,
     ⟨chars "eleven_v3", chars "hi", chars "v"⟩]
    (by decide) (by rfl)

/-! ## Phase 2 orchestration: run_pipeline.py, continue_with_audio -/

/-- Outcomes of the remote steps Phase 2 performs, plus the measured
elapsed seconds.  Required steps (audio upload, render-job creation,
poll-and-download) and optional steps (Drive upload, Sheets log, email,
YouTube) each either succeed with their payload or raise with a message. -/
structure P2Env where
  audioExists : Bool
  uploadAudio : Except (List Char) (List Char)
  createVideo : Except (List Char) (List Char)
  waitDownload : Except (List Char) (List Char)
  driveUpload : Except (List Char) (List Char)
  sheetsLog : Except (List Char) (List Char)
  sendEmail : Except (List Char) Unit
  youtubeUpload : Except (List Char) (List Char)
  elapsedSeconds : Nat

/-- The result dict of `continue_with_audio` (lines 268-276, as mutated by
the optional steps). -/
structure P2Result where
  video_path : List Char
  audio_path : List Char
  selected_option : List Char
  drive_link : Option (List Char)
  sheet_link : Option (List Char)
  youtube_url : Option (List Char)
  duration : Nat
deriving DecidableEq

/-- Failures `continue_with_audio` propagates to its caller. -/
inductive P2Err where
  | audioNotFound : P2Err
  | stepError : List Char → P2Err
deriving DecidableEq

/-- The cloud try/except group of Phase 2 (lines 281-319): Drive upload,
then Sheets log, then email, mutating the result as each succeeds; the
first failure leaves the result as mutated so far (warning only). -/
def cloudStep (env : P2Env) (r : P2Result) : P2Result :=
  match env.driveUpload with
  | .error _ => r
  | .ok dl =>
    let rA := { r with drive_link := some dl }
    match env.sheetsLog with
    | .error _ => rA
    | .ok sl =>
      let rB := { rA with sheet_link := some sl }
      match env.sendEmail with
      | .error _ => rB
      | .ok _ => rB

/-- The YouTube try/except of Phase 2 (lines 322-340). -/
def ytStep (env : P2Env) (r : P2Result) : P2Result :=
  match env.youtubeUpload with
  | .error _ => r
  | .ok u => { r with youtube_url := some u }

/-- `continue_with_audio(audio_path, ...)` (lines 182-356): validate the
audio file, derive names, run the three required steps (any failure
propagates), build the result, then run the optional cloud group
(Drive → Sheets → email) in one try/except that only warns, and the
optional YouTube upload in its own try/except that only warns. -/
def continue_with_audio (env : P2Env) (audio_path : List Char)
    (output_name : Option (List Char)) (skip_cloud upload_youtube : Bool) :
    Except P2Err P2Result :=
  if env.audioExists = false then .error .audioNotFound
  else
    let audio_stem := pathStem (pyName audio_path)
    let selected_option := (deriveNames audio_stem).2
    match env.uploadAudio with
    | .error e => .error (.stepError e)
    | .ok _ =>
      match env.createVideo with
      | .error e => .error (.stepError e)
      | .ok _ =>
        match env.waitDownload with
        | .error e => .error (.stepError e)
        | .ok final_video =>
          let result0 : P2Result :=
            { video_path := final_video
              audio_path := audio_path
              selected_option := selected_option
              drive_link := none
              sheet_link := none
              youtube_url := none
              duration := env.elapsedSeconds }
          let result1 := if skip_cloud then result0 else cloudStep env result0
          let result2 :=
            if upload_youtube then ytStep env result1 else result1
          .ok result2

theorem cloudStep_preserves (env : P2Env) (r : P2Result) :
    (cloudStep env r).video_path = r.video_path ∧
    (cloudStep env r).duration = r.duration := by
  rw [cloudStep]
  cases env.driveUpload with
  | error e => exact ⟨rfl, rfl⟩
  | ok dl =>
      cases env.sheetsLog with
      | error e => exact ⟨rfl, rfl⟩
      | ok sl =>
          cases env.sendEmail with
          | error e => exact ⟨rfl, rfl⟩
          | ok u => exact ⟨rfl, rfl⟩

theorem ytStep_preserves (env : P2Env) (r : P2Result) :
    (ytStep env r).video_path = r.video_path ∧
    (ytStep env r).duration = r.duration := by
  rw [ytStep]
  cases env.youtubeUpload with
  | error e => exact ⟨rfl, rfl⟩
  | ok u => exact ⟨rfl, rfl⟩

/-- C4: once the three required steps succeed, `continue_with_audio`
returns normally whatever the optional fan-out steps do; and in the
specific scenario where the Drive upload raises (with the cloud group
enabled), the result still reports the downloaded video path and the
measured duration, with no drive link. -/
theorem continue_with_audio_fanout_isolation :
    (∀ (env : P2Env) (audio_path : List Char) output_name skip_cloud
        upload_youtube a v d,
        env.audioExists = true →
        env.uploadAudio = .ok a → env.createVideo = .ok v →
        env.waitDownload = .ok d →
        ∃ r, continue_with_audio env audio_path output_name skip_cloud
            upload_youtube = .ok r
          ∧ r.video_path = d ∧ r.duration = env.elapsedSeconds)
    ∧ (∀ (env : P2Env) (audio_path : List Char) output_name a v d e,
        env.audioExists = true →
        env.uploadAudio = .ok a → env.createVideo = .ok v →
        env.waitDownload = .ok d →
        env.driveUpload = .error e →
        continue_with_audio env audio_path output_name false false =
          .ok { video_path := d
                audio_path := audio_path
                selected_option := (deriveNames (pathStem (pyName audio_path))).2
                drive_link := none
                sheet_link := none
                youtube_url := none
                duration := env.elapsedSeconds }) := by
  constructor
  · intro env audio_path output_name skip_cloud upload_youtube a v d hex hu hc hw
    rw [continue_with_audio, if_neg (by simp [hex]), hu, hc, hw]
    refine ⟨_, rfl, ?_, ?_⟩
    all_goals
      by_cases hyt : upload_youtube = true <;>
        by_cases hsc : skip_cloud = true <;>
          simp [hyt, hsc, (ytStep_preserves env _).1, (ytStep_preserves env _).2,
            (cloudStep_preserves env _).1, (cloudStep_preserves env _).2]
  · intro env audio_path output_name a v d e hex hu hc hw hd
    rw [continue_with_audio, if_neg (by simp [hex]), hu, hc, hw]
    simp [cloudStep, hd]

/-- Environment for the C4 witness: required steps succeed, Drive fails. -/
def p2DriveFailEnv : P2Env :=
  { audioExists := true
    uploadAudio := .ok (chars "asset1")
    createVideo := .ok (chars "video1")
    waitDownload := .ok (chars "output/demo_video.mp4")
    driveUpload := .error (chars "credentials.json missing")
    sheetsLog := .ok (chars "sheet")
    sendEmail := .ok ()
    youtubeUpload := .ok (chars "yturl")
    elapsedSeconds := 321 }

/-- Witness for C4: the Drive-failure scenario at a concrete environment. -/
theorem continue_with_audio_fanout_isolation_witness :
    continue_with_audio p2DriveFailEnv (chars "demo_audio_OptionA.mp3") none
        false false =
      .ok { video_path := chars "output/demo_video.mp4"
            audio_path := chars "demo_audio_OptionA.mp3"
            selected_option :=
              (deriveNames (pathStem (pyName (chars "demo_audio_OptionA.mp3")))).2
            drive_link := none
            sheet_link := none
            youtube_url := none
            duration := 321 } :=
  continue_with_audio_fanout_isolation.2 p2DriveFailEnv
    (chars "demo_audio_OptionA.mp3") none (chars "asset1") (chars "video1")
    (chars "output/demo_video.mp4") (chars "credentials.json missing")
    rfl rfl rfl rfl rfl

end Pipeline
